import Mathlib

/-!
Shallow embedding of the PDF article extractor in `src/app.py`
(functions `slugify`, `find_heading`, `extract_to_markdown`).

Modelling conventions:
* Python floats (font sizes, bounding-box coordinates, page heights) are
  modelled as rationals `ℚ`; the comparisons performed by the code
  (`<`, `>`) are exact on the values the claims mention.
* A decoded page (the output of PyMuPDF's `page.get_text("dict")`,
  `page.get_text()` and `page.get_images(full=True)`) is modelled by the
  `Page` structure: text blocks with a type tag, the top `y0` of the
  bounding box, lines of spans (text + font size), the flattened plain
  text, and the list of embedded images (xref plus the pixmap's alpha
  flag, which in the code is read off `fitz.Pixmap(doc, xref).alpha`).
* Python's `\w` and `\s` character classes and `str.lower`/`str.strip`
  are modelled on the ASCII fragment (Lean's `Char.isAlphanum`,
  `Char.isWhitespace`, `Char.toLower`, `String.trim`); all inputs in the
  claims fall in this fragment apart from characters that both sides
  remove (e.g. the em dash).
* Image output paths are recorded relative to `out_dir` with `/` as the
  separator; `out_dir` itself is a uniform prefix with no influence on
  any claim.
-/

namespace AppPy

/-- A text span of a decoded block: `span["text"]` and `span["size"]`. -/
structure Span where
  text : String
  size : ℚ
deriving Repr, DecidableEq

/-- A line of a decoded text block: `line["spans"]`. -/
structure Line where
  spans : List Span
deriving Repr, DecidableEq

/-- A decoded block: `blk["type"]`, the `y0` of `blk["bbox"]`, `blk["lines"]`. -/
structure Block where
  type : ℕ
  y0 : ℚ
  lines : List Line
deriving Repr, DecidableEq

/-- An embedded image: its `xref` and the alpha flag of its pixmap. -/
structure ImageInfo where
  xref : ℕ
  alpha : Bool
deriving Repr, DecidableEq

/-- One decoded page: structured blocks, page height, flattened plain text
(`page.get_text()`), embedded images (`page.get_images(full=True)`). -/
structure Page where
  blocks : List Block
  height : ℚ
  text : String
  images : List ImageInfo
deriving Repr, DecidableEq

/-- A paragraph record `dict(text=p, images=[])` of `extract_to_markdown`. -/
structure Paragraph where
  text : String
  images : List String
deriving Repr, DecidableEq

/-- An article record of `extract_to_markdown`; `none` models Python `None`. -/
structure Article where
  id : ℕ
  title : Option String
  start_page : Option ℕ
  end_page : Option ℕ
  paragraphs : List Paragraph
deriving Repr, DecidableEq

/-! ## Python string primitives -/

/-- Python `str.strip()` on a character list: drop leading and trailing
whitespace. -/
def pyStripList (cs : List Char) : List Char :=
  ((cs.dropWhile Char.isWhitespace).reverse.dropWhile Char.isWhitespace).reverse

/-- Python `str.strip()`. -/
def pyStrip (s : String) : String :=
  String.mk (pyStripList s.data)

/-- Python `str.split("\n\n")`: cut at each leftmost non-overlapping
occurrence of two consecutive newlines.  `acc` holds the reversed current
segment. -/
def splitNN : List Char → List Char → List (List Char)
  | [], acc => [acc.reverse]
  | '\n' :: '\n' :: rest, acc => acc.reverse :: splitNN rest []
  | c :: rest, acc => splitNN rest (c :: acc)

/-! ## `slugify` (src/app.py lines 15-19) -/

/-- Python `\w` on the ASCII fragment: alphanumeric or underscore. -/
def isWordChar (c : Char) : Bool :=
  c.isAlphanum || c = '_'

/-- A character kept by `re.sub(r'[^\w\s-]', '', s)`: word char, whitespace
or hyphen. -/
def isKeptChar (c : Char) : Bool :=
  isWordChar c || c.isWhitespace || c = '-'

/-- A character matched by the class `[\s_-]`. -/
def isSepChar (c : Char) : Bool :=
  c.isWhitespace || c = '_' || c = '-'

/-- `re.sub(r'[\s_-]+', '_', ·)` on a character list: each maximal run of
separator characters becomes a single `_`.  The flag records whether the
previous character was part of such a run. -/
def collapseSeps : List Char → Bool → List Char
  | [], _ => []
  | c :: cs, inRun =>
    if isSepChar c then
      if inRun then collapseSeps cs true
      else '_' :: collapseSeps cs true
    else c :: collapseSeps cs false

/-- Python `str.strip('_')`: drop leading and trailing underscores. -/
def stripUnders (cs : List Char) : List Char :=
  ((cs.dropWhile (fun c => c = '_')).reverse.dropWhile (fun c => c = '_')).reverse

/-- `slugify(s, maxlen=50)` from src/app.py: lowercase, delete everything
but word chars / whitespace / hyphens, collapse `[\s_-]+` runs to `_`,
strip `_`, truncate to `maxlen`, default `"article"` when empty. -/
def slugify (s : String) (maxlen : ℕ) : String :=
  let cs := s.data.map Char.toLower
  let cs := cs.filter isKeptChar
  let cs := collapseSeps cs false
  let cs := stripUnders cs
  let cs := cs.take maxlen
  if cs.isEmpty then "article" else String.mk cs

/-! ## `find_heading` (src/app.py lines 21-39) -/

/-- Default `size_thresh` of `find_heading`. -/
def SIZE_THRESHOLD : ℚ := 18

/-- Default `y_margin_frac` of `find_heading`. -/
def Y_MARGIN_FRAC : ℚ := 15 / 100

/-- Default `min_chars` of `find_heading`. -/
def MIN_CHARS : ℕ := 10

/-- `[span for line in blk["lines"] for span in line["spans"]]`. -/
def spansOf (blk : Block) : List Span :=
  (blk.lines.map Line.spans).flatten

/-- `max(span["size"] for span in spans)`.  The `[]` case is unreachable:
the code guards with `if not spans or ...` before taking the maximum. -/
def maxSize : List Span → ℚ
  | [] => 0
  | s :: rest => rest.foldl (fun m sp => max m sp.size) s.size

/-- `re.sub(r'\s+', ' ', ·)` on a character list: each maximal whitespace
run becomes a single space. -/
def collapseWsAux : List Char → Bool → List Char
  | [], _ => []
  | c :: cs, inRun =>
    if c.isWhitespace then
      if inRun then collapseWsAux cs true
      else ' ' :: collapseWsAux cs true
    else c :: collapseWsAux cs false

/-- `re.sub(r'\s+', ' ', s).strip()`. -/
def collapseWs (s : String) : String :=
  String.mk (pyStripList (collapseWsAux s.data false))

/-- The candidate heading text of a block:
`" ".join(span["text"].strip() for span in spans)` followed by whitespace
collapsing and trimming. -/
def blockText (blk : Block) : String :=
  collapseWs (String.intercalate " " ((spansOf blk).map (fun sp => pyStrip sp.text)))

/-- `find_heading(blocks, page_height, size_thresh, y_margin_frac, min_chars)`:
scan blocks in order; skip non-text blocks, blocks below the top margin,
blocks with no spans or maximal span size below the threshold, and blocks
whose collapsed text is shorter than `min_chars`; return the first
surviving block's text, else `None`. -/
def find_heading (size_thresh : ℚ) (y_margin_frac : ℚ) (min_chars : ℕ)
    (page_height : ℚ) : List Block → Option String
  | [] => none
  | blk :: rest =>
    if blk.type ≠ 0 then
      find_heading size_thresh y_margin_frac min_chars page_height rest
    else if page_height * y_margin_frac < blk.y0 then
      find_heading size_thresh y_margin_frac min_chars page_height rest
    else if spansOf blk = [] then
      find_heading size_thresh y_margin_frac min_chars page_height rest
    else if maxSize (spansOf blk) < size_thresh then
      find_heading size_thresh y_margin_frac min_chars page_height rest
    else if min_chars ≤ (blockText blk).length then
      some (blockText blk)
    else
      find_heading size_thresh y_margin_frac min_chars page_height rest

/-- `find_heading` at its default parameters, as called on line 65. -/
def findHeadingDefault (p : Page) : Option String :=
  find_heading SIZE_THRESHOLD Y_MARGIN_FRAC MIN_CHARS p.height p.blocks

/-! ## The segmenter loop of `extract_to_markdown` (src/app.py lines 49-104) -/

/-- The loop state: finalized `articles` and the `current` article. -/
structure SegState where
  articles : List Article
  current : Article
deriving Repr, DecidableEq

/-- `dict(id=1, title=None, start_page=None, end_page=None, paragraphs=[])`. -/
def initCurrent : Article :=
  { id := 1, title := none, start_page := none, end_page := none, paragraphs := [] }

/-- The initial loop state (line 50-52). -/
def initState : SegState :=
  { articles := [], current := initCurrent }

/-- Lines 66-76: if a heading was found, close `current` (when it already
has a title) with `end_page = pageno - 1` and open a fresh article, then
assign the heading as title and `pageno` as start page. -/
def headingStep (st : SegState) (pageno : ℕ) : Option String → SegState
  | none => st
  | some h =>
    match st.current.title with
    | none =>
      { st with current := { st.current with title := some h, start_page := some pageno } }
    | some _ =>
      { articles := st.articles ++ [{ st.current with end_page := some (pageno - 1) }],
        current := { id := st.current.id + 1, title := some h,
                     start_page := some pageno, end_page := none, paragraphs := [] } }

/-- Lines 78-80: the synthetic-title fallback,
`current["title"] = f"article_{current['id']}"; current["start_page"] = 1`. -/
def fallbackStep (a : Article) : Article :=
  match a.title with
  | none => { a with title := some ("article_" ++ toString a.id), start_page := some 1 }
  | some _ => a

/-- Lines 83-84: `page.get_text().strip()` split on `"\n\n"`, keeping the
segments that are non-blank (`if p.strip()`); the kept segment itself is
stored untouched. -/
def pageParas (t : String) : List String :=
  ((splitNN (pyStripList t.data) []).map String.mk).filter (fun p => pyStrip p ≠ "")

/-- Lines 83-86: append one paragraph per kept segment, with no images. -/
def addParagraphs (st : SegState) (p : Page) : SegState :=
  { st with current := { st.current with paragraphs :=
      st.current.paragraphs ++ (pageParas p.text).map (fun q => { text := q, images := [] }) } }

/-- `f"{n:03d}"`: decimal, zero-padded to width 3. -/
def pad3 (n : ℕ) : String :=
  let s := toString n
  if s.length < 3 then String.mk (List.replicate (3 - s.length) '0' ++ s.data) else s

/-- Line 96: `"png" if pix.alpha else "jpg"`. -/
def imgExt (alpha : Bool) : String :=
  if alpha then "png" else "jpg"

/-- Lines 91-97: the stored image path, relative to `out_dir`:
`images_out/<id:03d>_<slug>/p<page:03d>_i<idx>.<ext>`. -/
def imgPath (artId : ℕ) (title : String) (pageno : ℕ) (idx : ℕ) (alpha : Bool) : String :=
  "images_out/" ++ pad3 artId ++ "_" ++ slugify title 50 ++ "/p" ++
    pad3 pageno ++ "_i" ++ toString idx ++ "." ++ imgExt alpha

/-- The paths generated for a page's image list, with
`enumerate(img_list, start=1)` indices. -/
def imgPaths (artId : ℕ) (title : String) (pageno : ℕ) (imgs : List ImageInfo) : List String :=
  (imgs.enumFrom 1).map (fun pr => imgPath artId title pageno pr.1 pr.2.alpha)

/-- `current["paragraphs"][-1]["images"].append(img_path)`: append one path
to the last paragraph of the list. -/
def attachImg : List Paragraph → String → List Paragraph
  | [], _ => []
  | [q], path => [{ q with images := q.images ++ [path] }]
  | q :: q2 :: qs, path => q :: attachImg (q2 :: qs) path

/-- Attach every path in order to the last paragraph. -/
def attachAll (paras : List Paragraph) (paths : List String) : List Paragraph :=
  paths.foldl attachImg paras

/-- Lines 89-99: when the page has images and `current` has at least one
paragraph, attach all of the page's image paths to the last paragraph of
`current`. -/
def addImages (st : SegState) (pageno : ℕ) (p : Page) : SegState :=
  if p.images ≠ [] ∧ st.current.paragraphs ≠ [] then
    let paras := attachAll st.current.paragraphs
      (imgPaths st.current.id ((st.current.title).getD "") pageno p.images)
    { st with current := { st.current with paragraphs := paras } }
  else st

/-- The loop state after the heading, fallback and paragraph steps of a
page (lines 63-86), before image attachment. -/
def preImage (st : SegState) (pageno : ℕ) (p : Page) : SegState :=
  addParagraphs
    { headingStep st pageno (findHeadingDefault p) with
      current := fallbackStep (headingStep st pageno (findHeadingDefault p)).current } p

/-- One iteration of the page loop (lines 63-99) at page number `pageno`. -/
def processPage (st : SegState) (pageno : ℕ) (p : Page) : SegState :=
  addImages (preImage st pageno p) pageno p

/-- The page loop, `for pageno, page in enumerate(doc, start=1)`. -/
def segLoop : SegState → ℕ → List Page → SegState
  | st, _, [] => st
  | st, n, p :: ps => segLoop (processPage st n p) (n + 1) ps

/-- Lines 102-104: after the loop, if `current` has a title, close it with
`end_page = doc.page_count` and append it.  The result is the `articles`
list returned by `extract_to_markdown`. -/
def extract_articles (pages : List Page) : List Article :=
  let st := segLoop initState 1 pages
  match st.current.title with
  | some _ => st.articles ++ [{ st.current with end_page := some pages.length }]
  | none => st.articles

/-- `str(x)` for the optional int fields of an article row. -/
def optNatStr : Option ℕ → String
  | some n => toString n
  | none => "None"

/-- Lines 107-115: the CSV rows, a header row followed by one row per
article with id, title, start page, end page and total image count. -/
def csv_rows (pages : List Page) : List (List String) :=
  ["id", "title", "start_page", "end_page", "image_count"] ::
    (extract_articles pages).map (fun art =>
      [toString art.id, (art.title).getD "None", optNatStr art.start_page,
       optNatStr art.end_page, toString (art.paragraphs.foldl (fun k q => k + q.images.length) 0)])

/-! ## Predicates used to state the segmenter invariants -/

/-- The articles carry ids `k, k+1, k+2, ...` in list order. -/
def idsFrom : ℕ → List Article → Prop
  | _, [] => True
  | k, a :: rest => a.id = k ∧ idsFrom (k + 1) rest

/-- `spansChain s arts cs`: the finalized articles tile `[s, cs - 1]` with
contiguous non-overlapping closed ranges, and the open article starts at
`cs`. -/
def spansChain : ℕ → List Article → ℕ → Prop
  | s, [], cs => cs = s
  | s, a :: rest, cs => a.start_page = some s ∧
      ∃ e, a.end_page = some e ∧ s ≤ e ∧ spansChain (e + 1) rest cs

/-- `covChain s e arts`: the articles tile `[s, e]` exactly, in order:
each takes a closed range starting where the previous ended plus one, and
the last one ends at `e`. -/
def covChain : ℕ → ℕ → List Article → Prop
  | s, e, [] => s = e + 1
  | s, e, a :: rest => a.start_page = some s ∧
      ∃ ae, a.end_page = some ae ∧ s ≤ ae ∧ covChain (ae + 1) e rest

/-- Page `q` lies in the article's page range. -/
def inRange (a : Article) (q : ℕ) : Prop :=
  ∃ s e, a.start_page = some s ∧ a.end_page = some e ∧ s ≤ q ∧ q ≤ e

/-- The segmenter loop invariant after processing pages `1..n` (`n ≥ 1`):
the current article is open (no end page) with a title, its id continues
the finalized ids, and the finalized ranges tile the pages before the
current article's start page, which is at most `n`. -/
def stInv (st : SegState) (n : ℕ) : Prop :=
  st.current.end_page = none ∧
  st.current.id = st.articles.length + 1 ∧
  idsFrom 1 st.articles ∧
  (∃ t, st.current.title = some t) ∧
  ∃ cs, st.current.start_page = some cs ∧ 1 ≤ cs ∧ cs ≤ n ∧ spansChain 1 st.articles cs

/-! ## Concrete inputs used by witnesses and counterexamples -/

/-- A blockless page with one paragraph of text and no images. -/
def plainPage : Page :=
  { blocks := [], height := 100, text := "hello", images := [] }

/-- A blockless page with empty text (zero paragraphs) and one image. -/
def imgOnlyPage : Page :=
  { blocks := [], height := 100, text := "", images := [⟨7, false⟩] }

/-- A text block at the top of the page with one span of size exactly 18. -/
def headingBlock : Block :=
  { type := 0, y0 := 0, lines := [⟨[⟨"HEADLINE NEWS!!", 18⟩]⟩] }

/-- A page whose first block is an accepted heading block. -/
def headingPage : Page :=
  { blocks := [headingBlock], height := 100, text := "second page text", images := [] }

/-- A top-of-page text block whose only span has size 17.9. -/
def lowSizeBlock : Block :=
  { type := 0, y0 := 0, lines := [⟨[⟨"BIG ENOUGH TEXT", 179 / 10⟩]⟩] }

/-- A text block with a line list contributing zero spans. -/
def noSpanBlock : Block :=
  { type := 0, y0 := 0, lines := [⟨[]⟩] }

/-- A page whose flattened text splits into the segments `"a "` and `"b"`. -/
def splitPage : Page :=
  { blocks := [], height := 100, text := "a \n\nb", images := [] }

end AppPy

namespace AppPy

/-! ## Helper lemmas about the heading detector -/

theorem find_heading_some (sthr yf : ℚ) (mc : ℕ) (hgt : ℚ) (bs : List Block) (t : String)
    (h : find_heading sthr yf mc hgt bs = some t) :
    ∃ blk ∈ bs, blk.type = 0 ∧ blk.y0 ≤ hgt * yf ∧ spansOf blk ≠ [] ∧
      sthr ≤ maxSize (spansOf blk) ∧ mc ≤ t.length ∧ t = blockText blk := by
  induction bs with
  | nil => simp [find_heading] at h
  | cons blk rest ih =>
    rw [find_heading] at h
    split_ifs at h with h1 h2 h3 h4 h5
    · obtain ⟨b, hb, hprops⟩ := ih h
      exact ⟨b, List.mem_cons_of_mem _ hb, hprops⟩
    · obtain ⟨b, hb, hprops⟩ := ih h
      exact ⟨b, List.mem_cons_of_mem _ hb, hprops⟩
    · obtain ⟨b, hb, hprops⟩ := ih h
      exact ⟨b, List.mem_cons_of_mem _ hb, hprops⟩
    · obtain ⟨b, hb, hprops⟩ := ih h
      exact ⟨b, List.mem_cons_of_mem _ hb, hprops⟩
    · obtain rfl : blockText blk = t := Option.some_injective _ h
      exact ⟨blk, List.mem_cons_self _ _,
        not_not.mp (fun hc => h1 hc), le_of_not_lt h2, h3, le_of_not_lt h4, h5, rfl⟩
    · obtain ⟨b, hb, hprops⟩ := ih h
      exact ⟨b, List.mem_cons_of_mem _ hb, hprops⟩

theorem find_heading_skip (sthr yf : ℚ) (mc : ℕ) (hgt : ℚ) (blk : Block) (rest : List Block)
    (h : blk.type ≠ 0 ∨ hgt * yf < blk.y0 ∨ spansOf blk = [] ∨ maxSize (spansOf blk) < sthr) :
    find_heading sthr yf mc hgt (blk :: rest) = find_heading sthr yf mc hgt rest := by
  rw [find_heading]
  split_ifs with h1 h2 h3 h4 h5 <;> try rfl
  rcases h with hc | hc | hc | hc
  · exact absurd hc h1
  · exact absurd hc h2
  · exact absurd hc h3
  · exact absurd hc h4

/-! ## Helper lemmas about one loop iteration -/

theorem addImages_shape (st : SegState) (n : ℕ) (p : Page) :
    ∃ paras, addImages st n p = { st with current := { st.current with paragraphs := paras } } := by
  unfold addImages
  split
  · exact ⟨_, rfl⟩
  · exact ⟨st.current.paragraphs, rfl⟩

theorem processPage_shape (st : SegState) (n : ℕ) (p : Page) :
    ∃ paras, processPage st n p =
      { articles := (headingStep st n (findHeadingDefault p)).articles,
        current := { fallbackStep (headingStep st n (findHeadingDefault p)).current
                      with paragraphs := paras } } := by
  obtain ⟨paras, h⟩ := addImages_shape
    (addParagraphs { headingStep st n (findHeadingDefault p) with
      current := fallbackStep (headingStep st n (findHeadingDefault p)).current } p) n p
  exact ⟨paras, h⟩

theorem headingStep_none (st : SegState) (n : ℕ) : headingStep st n none = st := rfl

theorem headingStep_some_of_none (st : SegState) (n : ℕ) (h : String)
    (ht : st.current.title = none) :
    headingStep st n (some h) =
      { st with current := { st.current with title := some h, start_page := some n } } := by
  simp only [headingStep, ht]

theorem headingStep_some_of_some (st : SegState) (n : ℕ) (h t : String)
    (ht : st.current.title = some t) :
    headingStep st n (some h) =
      { articles := st.articles ++ [{ st.current with end_page := some (n - 1) }],
        current := { id := st.current.id + 1, title := some h, start_page := some n,
                     end_page := none, paragraphs := [] } } := by
  simp only [headingStep, ht]

theorem fallbackStep_of_some (a : Article) (t : String) (ht : a.title = some t) :
    fallbackStep a = a := by
  simp only [fallbackStep, ht]

theorem fallbackStep_of_none (a : Article) (ht : a.title = none) :
    fallbackStep a =
      { a with title := some ("article_" ++ toString a.id), start_page := some 1 } := by
  simp only [fallbackStep, ht]

theorem attachImg_append (qs : List Paragraph) (q : Paragraph) (path : String) :
    attachImg (qs ++ [q]) path = qs ++ [{ q with images := q.images ++ [path] }] := by
  induction qs with
  | nil => rfl
  | cons r rs ih =>
    cases rs with
    | nil => simp [attachImg]
    | cons r2 rs2 => simpa [attachImg] using ih

theorem attachAll_append (qs : List Paragraph) (q : Paragraph) (paths : List String) :
    attachAll (qs ++ [q]) paths = qs ++ [{ q with images := q.images ++ paths }] := by
  induction paths generalizing q with
  | nil => simp [attachAll]
  | cons path rest ih =>
    show attachAll (attachImg (qs ++ [q]) path) rest = _
    rw [attachImg_append, ih]
    simp

theorem addImages_of_no_paragraphs (st : SegState) (n : ℕ) (p : Page)
    (h : st.current.paragraphs = []) : addImages st n p = st := by
  unfold addImages
  rw [if_neg]
  intro hc
  exact hc.2 h

theorem addImages_attach_last (st : SegState) (n : ℕ) (p : Page)
    (qs : List Paragraph) (q : Paragraph) (h : st.current.paragraphs = qs ++ [q]) :
    (addImages st n p).current.paragraphs =
      qs ++ [{ q with images := q.images ++ imgPaths st.current.id ((st.current.title).getD "") n p.images }] := by
  unfold addImages
  by_cases hi : p.images = []
  · rw [if_neg (fun hc => hc.1 hi), h, hi]
    simp [imgPaths]
  · rw [if_pos ⟨hi, by rw [h]; exact (List.append_ne_nil_of_right_ne_nil qs (by simp))⟩]
    simp only
    rw [h, attachAll_append]

theorem preImage_paragraphs (st : SegState) (n : ℕ) (p : Page) :
    (preImage st n p).current.paragraphs =
      (fallbackStep (headingStep st n (findHeadingDefault p)).current).paragraphs ++
        (pageParas p.text).map (fun q => { text := q, images := [] }) := rfl

/-! ## Helper lemmas about `slugify` -/

theorem string_mk_length (l : List Char) : (String.mk l).length = l.length := rfl

theorem slugify_length_le (s : String) (m : ℕ) (hm : 7 ≤ m) : (slugify s m).length ≤ m := by
  simp only [slugify]
  split_ifs
  · exact hm
  · rw [string_mk_length, List.length_take]
    exact min_le_left _ _

/-! ## Case analysis of one loop iteration -/

theorem processPage_no_heading (st : SegState) (n : ℕ) (p : Page) (t : String)
    (hh : findHeadingDefault p = none) (ht : st.current.title = some t) :
    ∃ paras, processPage st n p =
      { articles := st.articles, current := { st.current with paragraphs := paras } } := by
  obtain ⟨paras, hps⟩ := processPage_shape st n p
  refine ⟨paras, ?_⟩
  rw [hps, hh, headingStep_none, fallbackStep_of_some st.current t ht]

theorem processPage_none_of_none (st : SegState) (n : ℕ) (p : Page)
    (hh : findHeadingDefault p = none) (ht : st.current.title = none) :
    ∃ paras, processPage st n p =
      { articles := st.articles,
        current := { st.current with
                     title := some ("article_" ++ toString st.current.id),
                     start_page := some 1, paragraphs := paras } } := by
  obtain ⟨paras, hps⟩ := processPage_shape st n p
  refine ⟨paras, ?_⟩
  rw [hps, hh, headingStep_none, fallbackStep_of_none st.current ht]

theorem processPage_heading_of_none (st : SegState) (n : ℕ) (p : Page) (h : String)
    (hh : findHeadingDefault p = some h) (ht : st.current.title = none) :
    ∃ paras, processPage st n p =
      { articles := st.articles,
        current := { st.current with
                     title := some h, start_page := some n,
                     paragraphs := paras } } := by
  obtain ⟨paras, hps⟩ := processPage_shape st n p
  refine ⟨paras, ?_⟩
  rw [hps, hh, headingStep_some_of_none st n h ht]
  rfl

theorem processPage_heading_of_some (st : SegState) (n : ℕ) (p : Page) (h t : String)
    (hh : findHeadingDefault p = some h) (ht : st.current.title = some t) :
    ∃ paras, processPage st n p =
      { articles := st.articles ++ [{ st.current with end_page := some (n - 1) }],
        current := { id := st.current.id + 1, title := some h, start_page := some n,
                     end_page := none, paragraphs := paras } } := by
  obtain ⟨paras, hps⟩ := processPage_shape st n p
  refine ⟨paras, ?_⟩
  rw [hps, hh, headingStep_some_of_some st n h t ht]
  rfl

/-! ## Lemmas about the chain predicates -/

theorem idsFrom_append (k : ℕ) (A : List Article) (a : Article)
    (h : idsFrom k A) (ha : a.id = k + A.length) : idsFrom k (A ++ [a]) := by
  induction A generalizing k with
  | nil => exact ⟨by simpa using ha, trivial⟩
  | cons b B ih =>
    obtain ⟨hb, hB⟩ := h
    refine ⟨hb, ih (k + 1) hB ?_⟩
    rw [ha]
    simp
    omega

theorem idsFrom_get (k : ℕ) (L : List Article) (h : idsFrom k L) :
    ∀ (i : ℕ) (a : Article), L[i]? = some a → a.id = k + i := by
  induction L generalizing k with
  | nil => intro i a ha; simp at ha
  | cons b B ih =>
    obtain ⟨hb, hB⟩ := h
    intro i a ha
    cases i with
    | zero =>
      simp at ha
      subst ha
      simpa using hb
    | succ i =>
      simp at ha
      have := ih (k + 1) hB i a ha
      omega

theorem spansChain_append (s : ℕ) (A : List Article) (cs : ℕ) (c : Article) (e : ℕ)
    (h : spansChain s A cs) (hstart : c.start_page = some cs) (hend : c.end_page = some e)
    (hle : cs ≤ e) : spansChain s (A ++ [c]) (e + 1) := by
  induction A generalizing s with
  | nil =>
    obtain rfl : cs = s := h
    exact ⟨hstart, e, hend, hle, rfl⟩
  | cons a B ih =>
    obtain ⟨ha, e0, hae, hse, hrest⟩ := h
    exact ⟨ha, e0, hae, hse, ih (e0 + 1) hrest⟩

theorem spansChain_close (s : ℕ) (A : List Article) (cs : ℕ) (c : Article) (N : ℕ)
    (h : spansChain s A cs) (hstart : c.start_page = some cs) (hle : cs ≤ N) :
    covChain s N (A ++ [{ c with end_page := some N }]) := by
  induction A generalizing s with
  | nil =>
    obtain rfl : cs = s := h
    exact ⟨hstart, N, rfl, hle, rfl⟩
  | cons a B ih =>
    obtain ⟨ha, e0, hae, hse, hrest⟩ := h
    exact ⟨ha, e0, hae, hse, ih (e0 + 1) hrest⟩

theorem covChain_le (s e : ℕ) (L : List Article) (h : covChain s e L) : s ≤ e + 1 := by
  induction L generalizing s with
  | nil => exact le_of_eq h
  | cons b B ih =>
    obtain ⟨_, ae, _, hsae, hrest⟩ := h
    have := ih _ hrest
    omega

theorem covChain_bounds (s e : ℕ) (L : List Article) (h : covChain s e L) :
    ∀ (i : ℕ) (a : Article), L[i]? = some a → ∀ q : ℕ, inRange a q → s ≤ q ∧ q ≤ e := by
  induction L generalizing s with
  | nil => intro i a ha; simp at ha
  | cons b B ih =>
    obtain ⟨hb, ae, hbe, hsae, hrest⟩ := h
    intro i a ha q hq
    cases i with
    | zero =>
      simp at ha
      subst ha
      obtain ⟨s', e', hs', he', hsq, hqe⟩ := hq
      rw [hb] at hs'
      rw [hbe] at he'
      obtain rfl : s = s' := Option.some_injective _ hs'
      obtain rfl : ae = e' := Option.some_injective _ he'
      have := covChain_le _ _ _ hrest
      omega
    | succ i =>
      simp at ha
      have := ih _ hrest i a ha q hq
      omega

theorem covChain_start_lb (s e : ℕ) (L : List Article) (h : covChain s e L) :
    ∀ (i : ℕ) (a : Article), L[i]? = some a →
      ∃ sa ea, a.start_page = some sa ∧ a.end_page = some ea ∧ s ≤ sa ∧ sa ≤ ea := by
  induction L generalizing s with
  | nil => intro i a ha; simp at ha
  | cons b B ih =>
    obtain ⟨hb, ae, hbe, hsae, hrest⟩ := h
    intro i a ha
    cases i with
    | zero =>
      simp at ha
      subst ha
      exact ⟨s, ae, hb, hbe, le_refl s, hsae⟩
    | succ i =>
      simp at ha
      obtain ⟨sa, ea, h1, h2, h3, h4⟩ := ih _ hrest i a ha
      exact ⟨sa, ea, h1, h2, by omega, h4⟩

theorem covChain_start_mono (s e : ℕ) (L : List Article) (h : covChain s e L) :
    ∀ (i j : ℕ) (a b : Article), i < j → L[i]? = some a → L[j]? = some b →
      ∃ sa ea sb, a.start_page = some sa ∧ a.end_page = some ea ∧
        b.start_page = some sb ∧ sa ≤ ea ∧ ea < sb := by
  induction L generalizing s with
  | nil => intro i j a b _ ha; simp at ha
  | cons c C ih =>
    obtain ⟨hc, ae, hce, hsae, hrest⟩ := h
    intro i j a b hij ha hb
    cases i with
    | zero =>
      simp at ha
      subst ha
      cases j with
      | zero => omega
      | succ j =>
        simp at hb
        obtain ⟨sb, eb, hsb, _, hlb, _⟩ := covChain_start_lb _ _ _ hrest j b hb
        exact ⟨s, ae, sb, hc, hce, hsb, hsae, by omega⟩
    | succ i =>
      cases j with
      | zero => omega
      | succ j =>
        simp at ha hb
        exact ih _ hrest i j a b (by omega) ha hb

theorem covChain_cover (s e : ℕ) (L : List Article) (h : covChain s e L) :
    ∀ q, s ≤ q → q ≤ e → ∃! i : ℕ, ∃ a, L[i]? = some a ∧ inRange a q := by
  induction L generalizing s with
  | nil =>
    intro q hs hq
    have h' : s = e + 1 := h
    omega
  | cons b B ih =>
    obtain ⟨hb, ae, hbe, hsae, hrest⟩ := h
    intro q hs hq
    by_cases hqa : q ≤ ae
    · refine ⟨0, ⟨b, by simp, s, ae, hb, hbe, hs, hqa⟩, ?_⟩
      intro j hj
      obtain ⟨a, ha, hr⟩ := hj
      cases j with
      | zero => rfl
      | succ j =>
        simp at ha
        have := covChain_bounds _ _ _ hrest j a ha q hr
        omega
    · push_neg at hqa
      obtain ⟨i, ⟨a, ha, hr⟩, huniq⟩ := ih _ hrest q (by omega) hq
      refine ⟨i + 1, ⟨a, by simpa using ha, hr⟩, ?_⟩
      intro j hj
      obtain ⟨a', ha', hr'⟩ := hj
      cases j with
      | zero =>
        simp at ha'
        subst ha'
        obtain ⟨s', e', hs', he', hsq, hqe⟩ := hr'
        rw [hb] at hs'
        rw [hbe] at he'
        obtain rfl : s = s' := Option.some_injective _ hs'
        obtain rfl : ae = e' := Option.some_injective _ he'
        omega
      | succ j =>
        simp at ha'
        have := huniq j ⟨a', ha', hr'⟩
        omega

/-! ## The segmenter loop invariant -/

theorem stInv_base (p : Page) : stInv (processPage initState 1 p) 1 := by
  cases hh : findHeadingDefault p with
  | none =>
    obtain ⟨paras, hps⟩ := processPage_none_of_none initState 1 p hh rfl
    rw [hps]
    unfold stInv
    exact ⟨rfl, rfl, trivial, ⟨_, rfl⟩, 1, rfl, le_refl 1, le_refl 1, rfl⟩
  | some h =>
    obtain ⟨paras, hps⟩ := processPage_heading_of_none initState 1 p h hh rfl
    rw [hps]
    unfold stInv
    exact ⟨rfl, rfl, trivial, ⟨_, rfl⟩, 1, rfl, le_refl 1, le_refl 1, rfl⟩

theorem stInv_step (st : SegState) (n : ℕ) (p : Page) (hinv : stInv st n) :
    stInv (processPage st (n + 1) p) (n + 1) := by
  obtain ⟨hend, hid, hids, ⟨t, ht⟩, cs, hcs, h1cs, hcsn, hchain⟩ := hinv
  cases hh : findHeadingDefault p with
  | none =>
    obtain ⟨paras, hps⟩ := processPage_no_heading st (n + 1) p t hh ht
    rw [hps]
    unfold stInv
    exact ⟨hend, hid, hids, ⟨t, ht⟩, cs, hcs, h1cs, le_trans hcsn (Nat.le_succ n), hchain⟩
  | some h =>
    obtain ⟨paras, hps⟩ := processPage_heading_of_some st (n + 1) p h t hh ht
    rw [hps]
    unfold stInv
    refine ⟨rfl, ?_, ?_, ⟨h, rfl⟩, n + 1, rfl, by omega, le_refl _, ?_⟩
    · simp [hid]
    · refine idsFrom_append 1 st.articles _ hids ?_
      show st.current.id = 1 + st.articles.length
      omega
    · have hclose := spansChain_append 1 st.articles cs
        { st.current with end_page := some (n + 1 - 1) } n hchain hcs rfl hcsn
      simpa using hclose

theorem stInv_loop (ps : List Page) :
    ∀ (st : SegState) (n : ℕ), stInv st n → stInv (segLoop st (n + 1) ps) (n + ps.length) := by
  induction ps with
  | nil =>
    intro st n hinv
    simpa using hinv
  | cons p ps ih =>
    intro st n hinv
    have h1 := stInv_step st n p hinv
    have h2 := ih (processPage st (n + 1) p) (n + 1) h1
    have hlen : n + (p :: ps).length = (n + 1) + ps.length := by simp; omega
    rw [hlen]
    exact h2

theorem segLoop_inv (pages : List Page) (hne : pages ≠ []) :
    stInv (segLoop initState 1 pages) pages.length := by
  cases pages with
  | nil => exact absurd rfl hne
  | cons p ps =>
    have h0 := stInv_base p
    have h := stInv_loop ps (processPage initState 1 p) 1 h0
    have hlen : (p :: ps).length = 1 + ps.length := by simp; omega
    rw [hlen]
    exact h

theorem extract_articles_chain (pages : List Page) (hne : pages ≠ []) :
    idsFrom 1 (extract_articles pages) ∧
    covChain 1 pages.length (extract_articles pages) := by
  obtain ⟨hend, hid, hids, ⟨t, ht⟩, cs, hcs, h1cs, hcsn, hchain⟩ := segLoop_inv pages hne
  simp only [extract_articles, ht]
  constructor
  · refine idsFrom_append 1 _ _ hids ?_
    show (segLoop initState 1 pages).current.id = 1 + (segLoop initState 1 pages).articles.length
    omega
  · have h2 := spansChain_close 1 (segLoop initState 1 pages).articles cs
      (segLoop initState 1 pages).current pages.length hchain hcs hcsn
    rw [ht] at h2
    exact h2

/-! ## Evaluation lemmas for the concrete heading blocks -/

theorem maxSize_headingBlock : maxSize (spansOf headingBlock) = 18 := rfl

theorem maxSize_lowSizeBlock_lt : maxSize (spansOf lowSizeBlock) < SIZE_THRESHOLD := by
  have h : maxSize (spansOf lowSizeBlock) = 179 / 10 := rfl
  rw [h]
  norm_num [SIZE_THRESHOLD]

theorem y0_headingBlock_le : headingBlock.y0 ≤ (100 : ℚ) * Y_MARGIN_FRAC := by
  have h : headingBlock.y0 = 0 := rfl
  rw [h]
  norm_num [Y_MARGIN_FRAC]

theorem findHeading_headingBlock :
    find_heading SIZE_THRESHOLD Y_MARGIN_FRAC MIN_CHARS 100 [headingBlock] =
      some "HEADLINE NEWS!!" := by
  rw [find_heading,
    if_neg (by simp [headingBlock]),
    if_neg (not_lt.mpr y0_headingBlock_le),
    if_neg (by decide),
    if_neg (not_lt.mpr (by rw [maxSize_headingBlock]; norm_num [SIZE_THRESHOLD])),
    if_pos (by decide)]
  decide

theorem findHeading_headingPage : findHeadingDefault headingPage = some "HEADLINE NEWS!!" :=
  findHeading_headingBlock

/-! ## Claim theorems -/

/-- **C7** (error_handling): a zero-page document produces zero articles,
and the CSV index consists of the header row alone; nothing fails. -/
theorem C7_empty_document :
    extract_articles [] = [] ∧
    csv_rows [] = [["id", "title", "start_page", "end_page", "image_count"]] :=
  ⟨rfl, rfl⟩

/-- **C8** (functional_correctness): `slugify` lowercases, strips all
characters except word characters / whitespace / hyphens, collapses
`[\s_-]+` runs to a single underscore, trims underscores, truncates to 50
characters and defaults to `"article"` when empty; in particular
`slugify "Hello, World! — Part 2" = "hello_world_part_2"`. -/
theorem C8_slugify_spec :
    slugify "Hello, World! — Part 2" 50 = "hello_world_part_2" ∧
    slugify "" 50 = "article" ∧
    (∀ s : String, (slugify s 50).length ≤ 50) ∧
    slugify (String.mk (List.replicate 60 'x')) 50 = String.mk (List.replicate 50 'x') :=
  ⟨by decide, rfl, fun s => slugify_length_le s 50 (by norm_num), by decide⟩

/-- **C6** (functional_correctness): the heading detector rejects an
eligible block exactly when its maximal span size is strictly below
`SIZE_THRESHOLD = 18`: every returned heading comes from a block whose
maximal span size is at least the threshold, a block with maximal size
below the threshold (e.g. 17.9) is skipped, and a block with maximal size
exactly 18 passes the size test (and is returned when the other checks
pass). -/
theorem C6_size_threshold_boundary :
    (∀ (hgt : ℚ) (bs : List Block) (t : String),
        find_heading SIZE_THRESHOLD Y_MARGIN_FRAC MIN_CHARS hgt bs = some t →
        ∃ blk ∈ bs, t = blockText blk ∧ spansOf blk ≠ [] ∧
          SIZE_THRESHOLD ≤ maxSize (spansOf blk)) ∧
    (∀ (blk : Block) (rest : List Block) (hgt : ℚ),
        maxSize (spansOf blk) < SIZE_THRESHOLD →
        find_heading SIZE_THRESHOLD Y_MARGIN_FRAC MIN_CHARS hgt (blk :: rest) =
          find_heading SIZE_THRESHOLD Y_MARGIN_FRAC MIN_CHARS hgt rest) ∧
    (∀ (blk : Block) (rest : List Block) (hgt : ℚ),
        blk.type = 0 → blk.y0 ≤ hgt * Y_MARGIN_FRAC → spansOf blk ≠ [] →
        maxSize (spansOf blk) = 18 → MIN_CHARS ≤ (blockText blk).length →
        find_heading SIZE_THRESHOLD Y_MARGIN_FRAC MIN_CHARS hgt (blk :: rest) =
          some (blockText blk)) ∧
    ((179 / 10 : ℚ) < SIZE_THRESHOLD ∧ ¬ ((18 : ℚ) < SIZE_THRESHOLD)) := by
  refine ⟨?_, ?_, ?_, by norm_num [SIZE_THRESHOLD]⟩
  · intro hgt bs t h
    obtain ⟨blk, hmem, _, hy, hsp, hsz, _, ht⟩ := find_heading_some _ _ _ _ _ _ h
    exact ⟨blk, hmem, ht, hsp, hsz⟩
  · intro blk rest hgt h
    exact find_heading_skip _ _ _ _ _ _ (Or.inr (Or.inr (Or.inr h)))
  · intro blk rest hgt h1 h2 h3 h4 h5
    rw [find_heading, if_neg (by simp [h1]), if_neg (not_lt.mpr h2), if_neg h3,
      if_neg (not_lt.mpr (by rw [h4]; norm_num [SIZE_THRESHOLD])), if_pos h5]

/-- Witness for C6: the block of size 17.9 is skipped, the block of
size exactly 18 is accepted, and the accepted heading's block carries a
maximal span size of at least 18. -/
theorem C6_size_threshold_boundary_witness :
    (∃ blk ∈ [headingBlock], "HEADLINE NEWS!!" = blockText blk ∧ spansOf blk ≠ [] ∧
        SIZE_THRESHOLD ≤ maxSize (spansOf blk)) ∧
    find_heading SIZE_THRESHOLD Y_MARGIN_FRAC MIN_CHARS 100 [lowSizeBlock] =
      find_heading SIZE_THRESHOLD Y_MARGIN_FRAC MIN_CHARS 100 [] ∧
    find_heading SIZE_THRESHOLD Y_MARGIN_FRAC MIN_CHARS 100 [headingBlock] =
      some (blockText headingBlock) :=
  ⟨C6_size_threshold_boundary.1 100 [headingBlock] "HEADLINE NEWS!!" findHeading_headingBlock,
   C6_size_threshold_boundary.2.1 lowSizeBlock [] 100 maxSize_lowSizeBlock_lt,
   C6_size_threshold_boundary.2.2.1 headingBlock [] 100 rfl y0_headingBlock_le (by decide)
     maxSize_headingBlock (by decide)⟩

/-- **C10** (safety): a text block whose lines contain zero spans is
skipped by the `not spans` guard before the maximal span size is computed:
prepending such a block never changes the detector's result, and every
returned heading comes from a block with a non-empty span list.  (The Lean
embedding of `find_heading` is a total structurally recursive function, so
the detector is total on all well-formed block lists.) -/
theorem C10_empty_spans_guard :
    (∀ (sthr yf : ℚ) (mc : ℕ) (hgt : ℚ) (blk : Block) (rest : List Block),
        spansOf blk = [] →
        find_heading sthr yf mc hgt (blk :: rest) = find_heading sthr yf mc hgt rest) ∧
    (∀ (sthr yf : ℚ) (mc : ℕ) (hgt : ℚ) (bs : List Block) (t : String),
        find_heading sthr yf mc hgt bs = some t →
        ∃ blk ∈ bs, spansOf blk ≠ [] ∧ t = blockText blk) := by
  constructor
  · intro sthr yf mc hgt blk rest h
    exact find_heading_skip _ _ _ _ _ _ (Or.inr (Or.inr (Or.inl h)))
  · intro sthr yf mc hgt bs t h
    obtain ⟨blk, hmem, _, _, hsp, _, _, ht⟩ := find_heading_some _ _ _ _ _ _ h
    exact ⟨blk, hmem, hsp, ht⟩

/-- Witness for C10: a concrete span-less text block is skipped, and the
heading found behind it comes from a block with spans. -/
theorem C10_empty_spans_guard_witness :
    find_heading SIZE_THRESHOLD Y_MARGIN_FRAC MIN_CHARS 100 [noSpanBlock, headingBlock] =
      find_heading SIZE_THRESHOLD Y_MARGIN_FRAC MIN_CHARS 100 [headingBlock] ∧
    ∃ blk ∈ [noSpanBlock, headingBlock], spansOf blk ≠ [] ∧ "HEADLINE NEWS!!" = blockText blk :=
  ⟨C10_empty_spans_guard.1 SIZE_THRESHOLD Y_MARGIN_FRAC MIN_CHARS 100 noSpanBlock
      [headingBlock] rfl,
   C10_empty_spans_guard.2 SIZE_THRESHOLD Y_MARGIN_FRAC MIN_CHARS 100
      [noSpanBlock, headingBlock] "HEADLINE NEWS!!"
      (by rw [find_heading_skip SIZE_THRESHOLD Y_MARGIN_FRAC MIN_CHARS 100 noSpanBlock
          [headingBlock] (Or.inr (Or.inr (Or.inl rfl)))]
          exact findHeading_headingBlock)⟩

/-- **C3** counterexample: the page text `"a \n\nb"` splits into the kept
segments `"a "` and `"b"`, and the produced paragraph stores `"a "`
verbatim, which is not trimmed (stripping changes it). -/
theorem C3_counterexample :
    pageParas splitPage.text = ["a ", "b"] ∧
    (extract_articles [splitPage]).map Article.paragraphs =
      [[{ text := "a ", images := [] }, { text := "b", images := [] }]] ∧
    pyStrip "a " ≠ "a " :=
  ⟨by decide, by decide, by decide⟩

/-- **C3** (amended, functional_correctness): the page's stripped flattened
text is split on `"\n\n"` into segments, the segments that are blank after
stripping are discarded, and one Paragraph is appended per kept segment
(with no images).  The stored text is the raw segment: it is guaranteed
non-empty and non-blank, but it is not individually trimmed or
whitespace-collapsed. -/
theorem C3_paragraph_segments (st : SegState) (p : Page) :
    (addParagraphs st p).current.paragraphs =
      st.current.paragraphs ++ (pageParas p.text).map (fun q => { text := q, images := [] }) ∧
    ∀ q ∈ pageParas p.text, q ≠ "" ∧ pyStrip q ≠ "" := by
  refine ⟨rfl, ?_⟩
  intro q hq
  have hmem := List.of_mem_filter hq
  have hq' : pyStrip q ≠ "" := by simpa using hmem
  refine ⟨?_, hq'⟩
  intro h0
  exact hq' (by rw [h0]; rfl)

/-- Witness for the amended C3 at a concrete page: the two paragraphs of
`splitPage` are appended as raw segments, and the segment `"a "` is
non-empty and non-blank. -/
theorem C3_paragraph_segments_witness :
    ((addParagraphs initState splitPage).current.paragraphs =
      initState.current.paragraphs ++
        (pageParas splitPage.text).map (fun q => { text := q, images := [] })) ∧
    ("a " ≠ "" ∧ pyStrip "a " ≠ "") :=
  ⟨(C3_paragraph_segments initState splitPage).1,
   (C3_paragraph_segments initState splitPage).2 "a " (by decide)⟩

/-- **C1** counterexample: a 2-page document whose page 2 yields zero
paragraphs but carries an image.  The image is not dropped: it is attached
to the paragraph appended from page 1 (path `p002_i1` inside the page-1
paragraph `"hello"`). -/
theorem C1_counterexample :
    pageParas imgOnlyPage.text = [] ∧
    imgOnlyPage.images ≠ [] ∧
    extract_articles [plainPage, imgOnlyPage] =
      [{ id := 1, title := some "article_1", start_page := some 1, end_page := some 2,
         paragraphs := [{ text := "hello",
                          images := ["images_out/001_article_1/p002_i1.jpg"] }] }] :=
  ⟨rfl, by decide, by decide⟩

/-- **C1** (amended, functional_correctness): a page's images are attached
to the last paragraph of the *current article* at the time the page is
processed.  When the page yields zero paragraphs, the images are silently
dropped only if the current article holds no paragraphs at all; if the
article already holds paragraphs appended from earlier pages, the page's
images are all attached to the last of those earlier paragraphs. -/
theorem C1_images_to_last_current_paragraph (st : SegState) (n : ℕ) (p : Page) (c : Article)
    (hc : c = fallbackStep (headingStep st n (findHeadingDefault p)).current)
    (hp : pageParas p.text = []) :
    (c.paragraphs = [] → (processPage st n p).current.paragraphs = []) ∧
    (∀ qs q, c.paragraphs = qs ++ [q] →
      (processPage st n p).current.paragraphs =
        qs ++ [{ q with images := q.images ++ imgPaths c.id ((c.title).getD "") n p.images }]) := by
  subst hc
  constructor
  · intro h0
    have hpp : (preImage st n p).current.paragraphs = [] := by
      rw [preImage_paragraphs, hp, h0]
      rfl
    show (addImages (preImage st n p) n p).current.paragraphs = []
    rw [addImages_of_no_paragraphs _ _ _ hpp, hpp]
  · intro qs q hq
    have hpp : (preImage st n p).current.paragraphs = qs ++ [q] := by
      rw [preImage_paragraphs, hp, hq]
      simp
    show (addImages (preImage st n p) n p).current.paragraphs = _
    rw [addImages_attach_last _ _ _ _ _ hpp]
    rfl

/-- Witness for the amended C1 at the counterexample document: page 2 of
`[plainPage, imgOnlyPage]` yields zero paragraphs, the current article
already holds the page-1 paragraph `"hello"`, and the page-2 image is
attached to it. -/
theorem C1_images_to_last_current_paragraph_witness :
    (processPage (processPage initState 1 plainPage) 2 imgOnlyPage).current.paragraphs =
      [] ++ [{ text := "hello",
               images := [] ++ imgPaths 1 "article_1" 2 [{ xref := 7, alpha := false }] }] :=
  (C1_images_to_last_current_paragraph (processPage initState 1 plainPage) 2 imgOnlyPage
      _ rfl (by decide)).2 [] { text := "hello", images := [] } (by decide)

theorem segLoop_all_none (ps : List Page) :
    ∀ (st : SegState) (n : ℕ) (t : String), st.current.title = some t →
      (∀ p ∈ ps, findHeadingDefault p = none) →
      ∃ paras, segLoop st n ps =
        { articles := st.articles, current := { st.current with paragraphs := paras } } := by
  induction ps with
  | nil =>
    intro st n t ht _
    exact ⟨st.current.paragraphs, rfl⟩
  | cons p ps ih =>
    intro st n t ht hall
    obtain ⟨x1, h1⟩ := processPage_no_heading st n p t (hall p (List.mem_cons_self p ps)) ht
    show ∃ paras, segLoop (processPage st n p) (n + 1) ps = _
    rw [h1]
    obtain ⟨x2, h2⟩ := ih
      { articles := st.articles, current := { st.current with paragraphs := x1 } }
      (n + 1) t ht (fun q hq => hall q (List.mem_cons_of_mem p hq))
    exact ⟨x2, h2.trans rfl⟩

/-- **C4** (functional_correctness): when the heading detector returns
`None` on every page of a non-empty document, exactly one article is
produced, titled `article_1`, with start page 1 and end page equal to the
document's page count. -/
theorem C4_no_headings_single_article (pages : List Page) (hne : pages ≠ [])
    (hall : ∀ p ∈ pages, findHeadingDefault p = none) :
    ∃ paras, extract_articles pages =
      [{ id := 1, title := some "article_1", start_page := some 1,
         end_page := some pages.length, paragraphs := paras }] := by
  cases pages with
  | nil => exact absurd rfl hne
  | cons p ps =>
    obtain ⟨x1, h1⟩ := processPage_none_of_none initState 1 p
      (hall p (List.mem_cons_self p ps)) rfl
    obtain ⟨x2, h2⟩ := segLoop_all_none ps (processPage initState 1 p) 2 "article_1"
      (by rw [h1]; exact rfl) (fun q hq => hall q (List.mem_cons_of_mem p hq))
    have hsl : segLoop initState 1 (p :: ps) =
        { articles := [],
          current := { id := 1, title := some "article_1", start_page := some 1,
                       end_page := none, paragraphs := x2 } } := by
      show segLoop (processPage initState 1 p) 2 ps = _
      rw [h2, h1]
      exact rfl
    refine ⟨x2, ?_⟩
    simp only [extract_articles, hsl]
    exact rfl

/-- Witness for C4 at a concrete 2-page document with no headings. -/
theorem C4_no_headings_single_article_witness :
    ∃ paras, extract_articles [plainPage, splitPage] =
      [{ id := 1, title := some "article_1", start_page := some 1,
         end_page := some [plainPage, splitPage].length, paragraphs := paras }] :=
  C4_no_headings_single_article [plainPage, splitPage] (by decide) (by decide)

/-- **C5** (functional_correctness): in a 3-page document where the
detector accepts a heading only on page 2, exactly two articles result:
article 1 spans pages 1-1 and article 2 spans pages 2-3. -/
theorem C5_heading_only_on_page_two (p1 p2 p3 : Page) (t : String)
    (h1 : findHeadingDefault p1 = none)
    (h2 : findHeadingDefault p2 = some t)
    (h3 : findHeadingDefault p3 = none) :
    ∃ a1 a2, extract_articles [p1, p2, p3] = [a1, a2] ∧
      a1.id = 1 ∧ a1.start_page = some 1 ∧ a1.end_page = some 1 ∧
      a2.id = 2 ∧ a2.start_page = some 2 ∧ a2.end_page = some 3 := by
  obtain ⟨x1, e1⟩ := processPage_none_of_none initState 1 p1 h1 rfl
  obtain ⟨x2, e2⟩ := processPage_heading_of_some (processPage initState 1 p1) 2 p2 t
    "article_1" h2 (by rw [e1]; exact rfl)
  obtain ⟨x3, e3⟩ := processPage_no_heading (processPage (processPage initState 1 p1) 2 p2)
    3 p3 t h3 (by rw [e2])
  have hart : (segLoop initState 1 [p1, p2, p3]).articles =
      [{ id := 1, title := some "article_1", start_page := some 1,
         end_page := some 1, paragraphs := x1 }] := by
    show (processPage (processPage (processPage initState 1 p1) 2 p2) 3 p3).articles = _
    rw [e3, e2, e1]
    exact rfl
  have hcur : (segLoop initState 1 [p1, p2, p3]).current =
      { id := 2, title := some t, start_page := some 2, end_page := none,
        paragraphs := x3 } := by
    show (processPage (processPage (processPage initState 1 p1) 2 p2) 3 p3).current = _
    rw [e3, e2, e1]
    exact rfl
  refine ⟨{ id := 1, title := some "article_1", start_page := some 1, end_page := some 1,
            paragraphs := x1 },
          { id := 2, title := some t, start_page := some 2, end_page := some 3,
            paragraphs := x3 },
          ?_, rfl, rfl, rfl, rfl, rfl, rfl⟩
  simp only [extract_articles, hart, hcur]
  exact rfl

/-- Witness for C5 at a concrete 3-page document whose page 2 carries the
size-18 heading block. -/
theorem C5_heading_only_on_page_two_witness :
    ∃ a1 a2, extract_articles [plainPage, headingPage, plainPage] = [a1, a2] ∧
      a1.id = 1 ∧ a1.start_page = some 1 ∧ a1.end_page = some 1 ∧
      a2.id = 2 ∧ a2.start_page = some 2 ∧ a2.end_page = some 3 :=
  C5_heading_only_on_page_two plainPage headingPage plainPage "HEADLINE NEWS!!"
    rfl findHeading_headingPage rfl

/-- **C2** (invariants): for every non-empty document the produced articles
carry ids 1, 2, ... in order, their ranges tile `[1, page count]` exactly
(each range starts where the previous one ended plus one, the first starts
at page 1 and the last ends at the last page, with start ≤ end), ids and
start pages are strictly increasing along the list, and every page number
in `[1, page count]` lies in exactly one article's range. -/
theorem C2_articles_partition_pages (pages : List Page) (hne : pages ≠ []) :
    idsFrom 1 (extract_articles pages) ∧
    covChain 1 pages.length (extract_articles pages) ∧
    (∀ (i j : ℕ) (a b : Article), i < j →
        (extract_articles pages)[i]? = some a → (extract_articles pages)[j]? = some b →
        a.id < b.id ∧ ∃ sa sb, a.start_page = some sa ∧ b.start_page = some sb ∧ sa < sb) ∧
    (∀ q : ℕ, 1 ≤ q → q ≤ pages.length →
        ∃! i : ℕ, ∃ a, (extract_articles pages)[i]? = some a ∧ inRange a q) := by
  obtain ⟨hids, hcov⟩ := extract_articles_chain pages hne
  refine ⟨hids, hcov, ?_, covChain_cover 1 pages.length _ hcov⟩
  intro i j a b hij ha hb
  refine ⟨?_, ?_⟩
  · have hia := idsFrom_get 1 _ hids i a ha
    have hjb := idsFrom_get 1 _ hids j b hb
    omega
  · obtain ⟨sa, ea, sb, hsa, hea, hsb, hae, hesb⟩ :=
      covChain_start_mono 1 pages.length _ hcov i j a b hij ha hb
    exact ⟨sa, sb, hsa, hsb, by omega⟩

/-- Witness for C2 at a concrete 1-page document. -/
theorem C2_articles_partition_pages_witness :
    idsFrom 1 (extract_articles [plainPage]) ∧
    covChain 1 [plainPage].length (extract_articles [plainPage]) ∧
    (∀ (i j : ℕ) (a b : Article), i < j →
        (extract_articles [plainPage])[i]? = some a →
        (extract_articles [plainPage])[j]? = some b →
        a.id < b.id ∧ ∃ sa sb, a.start_page = some sa ∧ b.start_page = some sb ∧ sa < sb) ∧
    (∀ q : ℕ, 1 ≤ q → q ≤ [plainPage].length →
        ∃! i : ℕ, ∃ a, (extract_articles [plainPage])[i]? = some a ∧ inRange a q) :=
  C2_articles_partition_pages [plainPage] (by decide)

/-- **C9** (invariants): after the first page is processed the current
article's title is never `None`; the fallback is the identity whenever a
title is present (so the synthetic-title branch can only run on page 1);
and when it runs, the id is still 1, so the synthetic title is exactly
`article_1`. -/
theorem C9_fallback_only_first_page :
    (∀ (p : Page) (ps : List Page),
        ∃ t, (segLoop initState 1 (p :: ps)).current.title = some t) ∧
    (∀ a : Article, a.title ≠ none → fallbackStep a = a) ∧
    (∀ p : Page, findHeadingDefault p = none →
        (processPage initState 1 p).current.id = 1 ∧
        (processPage initState 1 p).current.title = some "article_1") := by
  refine ⟨?_, ?_, ?_⟩
  · intro p ps
    obtain ⟨_, _, _, hsome, _⟩ := segLoop_inv (p :: ps) (by simp)
    exact hsome
  · intro a ha
    cases hh : a.title with
    | none => exact absurd hh ha
    | some t => exact fallbackStep_of_some a t hh
  · intro p hp
    obtain ⟨x, e⟩ := processPage_none_of_none initState 1 p hp rfl
    rw [e]
    exact ⟨rfl, rfl⟩

/-- Witness for C9: a concrete 2-page run keeps a title, the fallback is
the identity on a titled article, and page 1 of a heading-less document
gets the synthetic title `article_1` with id 1. -/
theorem C9_fallback_only_first_page_witness :
    (∃ t, (segLoop initState 1 [plainPage, headingPage]).current.title = some t) ∧
    fallbackStep { id := 5, title := some "x", start_page := some 2, end_page := none,
                   paragraphs := [] } =
      { id := 5, title := some "x", start_page := some 2, end_page := none,
        paragraphs := [] } ∧
    ((processPage initState 1 plainPage).current.id = 1 ∧
     (processPage initState 1 plainPage).current.title = some "article_1") :=
  ⟨C9_fallback_only_first_page.1 plainPage [headingPage],
   C9_fallback_only_first_page.2.1 _ (by decide),
   C9_fallback_only_first_page.2.2 plainPage rfl⟩

end AppPy
